import Mathlib

/-!
Shallow embedding of `src/node/resolvers/search/utils.ts` (category-path
resolution for a storefront search backend) and proofs about it.

JS strings are modelled by `String` with ASCII-level case mapping; the
string primitives used by the source (`split('/')`, `toUpperCase`,
`toLowerCase`, `endsWith`, `join('/')`) are given structural definitions
over `String.data` so that concrete instances evaluate.  The external
collaborators (`searchSlugify`, `Slugify`, the search client and the
logger) are parameters of the model, collected in `Env`; invocations of
the client and the logger are recorded in the returned `ResolveTrace`.
-/

set_option maxHeartbeats 1000000

namespace SearchUtils

/-- `CategoryTreeResponse`: a category-tree node with numeric `id`,
`url` string and ordered `children`. -/
inductive CatNode : Type where
  | mk (id : Nat) (url : String) (children : List CatNode) : CatNode
deriving Repr

def CatNode.id : CatNode → Nat
  | .mk i _ _ => i

def CatNode.url : CatNode → String
  | .mk _ u _ => u

def CatNode.children : CatNode → List CatNode
  | .mk _ _ cs => cs

theorem CatNode.sizeOf_children_lt (n : CatNode) : sizeOf n.children < sizeOf n := by
  cases n with
  | mk i u cs => simp [CatNode.children]

/-- JS `s.toUpperCase()` (ASCII model). -/
def jsToUpper (s : String) : String :=
  String.mk (s.data.map Char.toUpper)

/-- JS `s.toLowerCase()` / Ramda `toLower` (ASCII model). -/
def jsToLower (s : String) : String :=
  String.mk (s.data.map Char.toLower)

/-- Accumulator for JS `s.split('/')`. -/
def splitSlashAux : List Char → List Char → List String
  | [], acc => [String.mk acc.reverse]
  | c :: cs, acc =>
    if c = '/' then String.mk acc.reverse :: splitSlashAux cs []
    else splitSlashAux cs (c :: acc)

/-- JS `s.split('/')`: always yields a non-empty array, with empty pieces
kept (`"/a".split('/') = ["", "a"]`). -/
def jsSplitSlash (s : String) : List String :=
  splitSlashAux s.data []

/-- `lastSegment = compose(last, split('/'))`: the final `/`-delimited
segment of a URL.  Ramda `last` on the never-empty result of `split`. -/
def lastSegment (url : String) : String :=
  (jsSplitSlash url).getLastD ""

/-- JS `s.endsWith(t)`. -/
def jsEndsWith (s t : String) : Bool :=
  t.data.isSuffixOf s.data

/-- JS `array.join('/')`. -/
def joinSlash : List String → String
  | [] => ""
  | [s] => s
  | s :: rest => s ++ "/" ++ joinSlash rest

/-- The per-node match test of `findCategoryInTree`:
`slug.toUpperCase() === values[index].toUpperCase()` where
`slug = lastSegment(node.url)`. -/
def slugMatches (n : CatNode) (v : String) : Bool :=
  jsToUpper (lastSegment n.url) == jsToUpper v

/-- `findCategoryInTree(tree, values, index)`.  The JS function walks the
nodes of the current level in order; it evaluates `values[index]` for the
comparison, so when `index` is out of range and the level is non-empty the
call to `.toUpperCase()` on `undefined` throws — modelled as `.error ()`.
On a match it either returns the node (at the last path segment) or
recurses into the node's children; with no match at the level it returns
`null`. -/
def findCategoryInTree : List CatNode → List String → Nat → Except Unit (Option CatNode)
  | [], _, _ => .ok none
  | node :: rest, values, index =>
    match values.get? index with
    | none => .error ()
    | some v =>
      if slugMatches node v then
        if index = values.length - 1 then
          .ok (some node)
        else
          findCategoryInTree node.children values (index + 1)
      else
        findCategoryInTree rest values index
termination_by tree _ _ => sizeOf tree
decreasing_by
  · have h := CatNode.sizeOf_children_lt node
    simp only [List.cons.sizeOf_spec]
    omega
  · simp only [List.cons.sizeOf_spec]
    omega

/-- `P` traces an actual root-to-descendant chain of slugs in `T`, ending
at descendant `d`: at each level some node of the current sibling list
matches the current segment (by the `slugMatches` test) and the chain
continues in its children. -/
inductive Chain : List CatNode → List String → CatNode → Prop where
  | here {tree : List CatNode} {v : String} {n : CatNode} :
      n ∈ tree → slugMatches n v = true → Chain tree [v] n
  | there {tree : List CatNode} {v w : String} {vs : List String} {n d : CatNode} :
      n ∈ tree → slugMatches n v = true →
      Chain n.children (w :: vs) d → Chain tree (v :: w :: vs) d

/-- The chain that the greedy first-match descent actually follows: at
each level the chain's node is the FIRST sibling whose slug matches the
current segment. -/
inductive FirstChain : List CatNode → List String → CatNode → Prop where
  | here {pre post : List CatNode} {v : String} {n : CatNode} :
      (∀ m ∈ pre, slugMatches m v = false) → slugMatches n v = true →
      FirstChain (pre ++ n :: post) [v] n
  | there {pre post : List CatNode} {v w : String} {vs : List String} {n d : CatNode} :
      (∀ m ∈ pre, slugMatches m v = false) → slugMatches n v = true →
      FirstChain n.children (w :: vs) d →
      FirstChain (pre ++ n :: post) (v :: w :: vs) d

/-- `CategoryMap = Record<string, CategoryTreeResponse>`: a JS object used
as a dictionary from category id to node, modelled pointwise. -/
def CategoryMap : Type := Nat → Option CatNode

/-- The empty JS object `{}`. -/
def emptyMap : CategoryMap := fun _ => none

mutual
/-- `appendToMap(mapCategories, category)`: store the node under its id
(overwriting any earlier binding), then reduce over its children. -/
def appendToMap (m : CategoryMap) : CatNode → CategoryMap
  | .mk i u cs =>
    appendList (fun k => if k = i then some (.mk i u cs) else m k) cs

/-- `list.reduce(appendToMap, m)`. -/
def appendList (m : CategoryMap) : List CatNode → CategoryMap
  | [] => m
  | c :: cs => appendList (appendToMap m c) cs
end

/-- `buildCategoryMap(categoryTree) = categoryTree.reduce(appendToMap, {})`. -/
def buildCategoryMap (categoryTree : List CatNode) : CategoryMap :=
  appendList emptyMap categoryTree

mutual
/-- The depth-first pre-order visit list of a node: the node itself, then
its children's visit lists in order. -/
def preorderNode : CatNode → List CatNode
  | .mk i u cs => .mk i u cs :: preorderList cs

/-- The depth-first pre-order visit list of a sibling list. -/
def preorderList : List CatNode → List CatNode
  | [] => []
  | c :: cs => preorderNode c ++ preorderList cs
end

/-- `PageTypeResult`: what `search.pageType` resolves to on success. -/
structure PageTypeResult : Type where
  id : Nat
  pageType : String
deriving Repr, DecidableEq

/-- `typesPossible = ['Department', 'Category', 'SubCategory']`. -/
def typesPossible : List String := ["Department", "Category", "SubCategory"]

/-- The external collaborators: the two slug normalizers from
`../../utils/slug` and the two search-client calls used by this module.
`pageType` may throw (`.error`) or resolve to `null` (`.ok none`). -/
structure Env : Type where
  searchSlugify : String → String
  slugify : String → String
  pageType : String → Except Unit (Option PageTypeResult)
  categories : Nat → List CatNode

/-- `CategoryArgs`: optional `department` / `category` / `subcategory`
strings (absent = `none`; JS treats both `undefined` and `""` as falsy). -/
structure CategoryArgs : Type where
  department : Option String
  category : Option String
  subcategory : Option String
deriving Repr, DecidableEq

/-- JS truthiness of an optional string: `undefined` and `""` are falsy. -/
def truthyStr : Option String → Bool
  | none => false
  | some s => !(s == "")

/-- One `logger.info` record. -/
structure LogEvent : Type where
  message : String
  name : String
deriving Repr, DecidableEq

/-- Result of a resolution together with the externally visible effects:
whether `search.pageType` / `search.categories` were invoked and which
log events were emitted. -/
structure ResolveTrace : Type where
  result : Option Nat
  pageTypeCalled : Bool
  categoriesCalled : Bool
  logs : List LogEvent
deriving Repr, DecidableEq

/-- The inner closure `compareGenericSlug` of `getIdFromTree`: false for a
missing/empty slug, otherwise true iff the url ends with `/` + the
lowercased search-style slug or `/` + the lowercased generic-style slug. -/
def compareGenericSlug (env : Env) (slug : Option String) (url : String) : Bool :=
  match slug with
  | none => false
  | some s =>
    if s == "" then false
    else
      jsEndsWith url ("/" ++ jsToLower (env.searchSlugify s)) ||
      jsEndsWith url ("/" ++ jsToLower (env.slugify s))

/-- `getIdFromTree(args, search)`: requires a truthy `args.department`;
fetches `search.categories(3)`, finds the first department matching
`compareGenericSlug`, then (when requested and still found) drills into
children for category and subcategory; returns `found.id` or `null`. -/
def getIdFromTree (args : CategoryArgs) (env : Env) : ResolveTrace :=
  if truthyStr args.department then
    let departments := env.categories 3
    let found0 := departments.find? fun d =>
      compareGenericSlug env args.department d.url
    let found1 :=
      if truthyStr args.category then
        found0.bind fun f => f.children.find? fun c =>
          compareGenericSlug env args.category c.url
      else found0
    let found2 :=
      if truthyStr args.subcategory then
        found1.bind fun f => f.children.find? fun c =>
          compareGenericSlug env args.subcategory c.url
      else found1
    { result := found2.map CatNode.id
      pageTypeCalled := false
      categoriesCalled := true
      logs := [] }
  else
    { result := none, pageTypeCalled := false, categoriesCalled := false, logs := [] }

/-- `JSON.stringify(args)` (model: fields in declaration order, `undefined`
fields omitted, no escaping inside values). -/
def argsJson (args : CategoryArgs) : String :=
  let fields :=
    [("department", args.department), ("category", args.category),
     ("subcategory", args.subcategory)].filterMap fun p =>
      p.2.map fun v => "\x22" ++ p.1 ++ "\x22:\x22" ++ v ++ "\x22"
  "\x7b" ++ String.intercalate "," fields ++ "\x7d"

/-- The `logger.info` record emitted when `pageType` is falsy. -/
def pageTypeLogEvent (url : String) (args : CategoryArgs) : LogEvent :=
  { message := "category " ++ url ++ ", args " ++ argsJson args
    name := "pagetype-category-error" }

/-- The slash-joined slug path submitted to `search.pageType`:
`[department, category, subcategory].filter(Boolean).map(searchSlugify).join('/')`. -/
def constructedUrl (env : Env) (args : CategoryArgs) : String :=
  joinSlash
    ((([args.department, args.category, args.subcategory].filterMap fun o => o).filter
      fun s => !(s == "")).map env.searchSlugify)

/-- `searchContextGetCategory(args, search, isVtex, logger)`.  In generic
mode (`isVtex = false`) it goes straight to `getIdFromTree`.  Otherwise:
all-falsy args short-circuit to `null`; the constructed slug path is sent
to `search.pageType` with thrown errors caught to `null`; a falsy result
is logged and falls back to `getIdFromTree`, a result with an untrusted
`pageType` label falls back without logging, and a trusted label returns
`pageType.id` directly. -/
def searchContextGetCategory (args : CategoryArgs) (env : Env) (isVtex : Bool) :
    ResolveTrace :=
  if !isVtex then
    getIdFromTree args env
  else if !truthyStr args.department && !truthyStr args.category &&
      !truthyStr args.subcategory then
    { result := none, pageTypeCalled := false, categoriesCalled := false, logs := [] }
  else
    let url := constructedUrl env args
    let pt : Option PageTypeResult :=
      match env.pageType url with
      | .error _ => none
      | .ok v => v
    let logs : List LogEvent :=
      match pt with
      | none => [pageTypeLogEvent url args]
      | some _ => []
    match pt with
    | none =>
      let fb := getIdFromTree args env
      { fb with pageTypeCalled := true, logs := logs ++ fb.logs }
    | some p =>
      if typesPossible.contains p.pageType then
        { result := some p.id
          pageTypeCalled := true
          categoriesCalled := false
          logs := [] }
      else
        let fb := getIdFromTree args env
        { fb with pageTypeCalled := true, logs := logs ++ fb.logs }

/-- The value `getCategoryInfo` returns: either a tree node, or the
literal sentinel object `\x7b url: '' \x7d` when the id is not in the map. -/
inductive CategoryInfoResult : Type where
  | node (c : CatNode)
  | sentinel
deriving Repr

/-- The `url` field of a `getCategoryInfo` result. -/
def CategoryInfoResult.url : CategoryInfoResult → String
  | .node c => c.url
  | .sentinel => ""

/-- `getCategoryInfo(search, id, levels)`: fetch `search.categories(levels)`,
index it with `reduce(appendToMap, {})`, and return `mapCategories[id]`
with the sentinel `\x7b url: '' \x7d` when the lookup is `undefined`. -/
def getCategoryInfo (env : Env) (id : Nat) (levels : Nat) : CategoryInfoResult :=
  let categories := env.categories levels
  let mapCategories := appendList emptyMap categories
  match mapCategories id with
  | some c => .node c
  | none => .sentinel

/-! ### Basic lemmas about `findCategoryInTree` -/

theorem find_cons (node : CatNode) (rest : List CatNode) (values : List String)
    (index : Nat) (v : String) (hv : values.get? index = some v) :
    findCategoryInTree (node :: rest) values index =
      if slugMatches node v then
        if index = values.length - 1 then .ok (some node)
        else findCategoryInTree node.children values (index + 1)
      else findCategoryInTree rest values index := by
  simp only [findCategoryInTree, hv]

theorem find_skip (pre rest : List CatNode) (values : List String) (index : Nat)
    (v : String) (hv : values.get? index = some v)
    (hpre : ∀ m ∈ pre, slugMatches m v = false) :
    findCategoryInTree (pre ++ rest) values index =
      findCategoryInTree rest values index := by
  induction pre with
  | nil => rfl
  | cons m pre ih =>
    have hm : slugMatches m v = false := hpre m (List.mem_cons_self m pre)
    rw [List.cons_append, find_cons m (pre ++ rest) values index v hv, hm]
    simp only [Bool.false_eq_true, if_false]
    exact ih fun m' h => hpre m' (List.mem_cons_of_mem _ h)

theorem find_no_error (tree : List CatNode) (values : List String) (index : Nat)
    (h : index < values.length) :
    ∃ o, findCategoryInTree tree values index = .ok o := by
  induction tree, values, index using findCategoryInTree.induct with
  | case1 values index => exact ⟨none, by simp [findCategoryInTree]⟩
  | case2 node rest values index hget =>
    rw [List.get?_eq_none] at hget
    omega
  | case3 node rest values v hmatch hget =>
    refine ⟨some node, ?_⟩
    rw [find_cons node rest values _ v hget]
    simp [hmatch]
  | case4 node rest values index v hget hmatch hlast ih =>
    obtain ⟨o, ho⟩ := ih (by omega)
    refine ⟨o, ?_⟩
    rw [find_cons node rest values index v hget, hmatch, if_neg hlast]
    exact ho
  | case5 node rest values index v hget hmatch ih =>
    obtain ⟨o, ho⟩ := ih h
    have hm : slugMatches node v = false := by simpa using hmatch
    refine ⟨o, ?_⟩
    rw [find_cons node rest values index v hget, hm]
    simpa using ho

theorem Chain.mono_cons (node : CatNode) (rest : List CatNode) (vs : List String)
    (d : CatNode) (h : Chain rest vs d) : Chain (node :: rest) vs d := by
  cases h with
  | here hmem hm => exact .here (List.mem_cons_of_mem _ hmem) hm
  | there hmem hm hc => exact .there (List.mem_cons_of_mem _ hmem) hm hc

theorem get?_some_elem {α : Type} (l : List α) (n : Nat) (a : α)
    (h : l.get? n = some a) : ∃ hn : n < l.length, l[n] = a := by
  rw [List.get?_eq_getElem?] at h
  rwa [List.getElem?_eq_some] at h

theorem drop_last_eq (values : List String) (v : String)
    (hget : values.get? (values.length - 1) = some v) :
    values.drop (values.length - 1) = [v] := by
  obtain ⟨hlt, hv⟩ := get?_some_elem values _ v hget
  rw [List.drop_eq_getElem_cons hlt, hv]
  have h1 : values.length - 1 + 1 = values.length := by omega
  rw [h1, List.drop_length]

/-- Soundness: when the search returns a node, the input path traces an
actual chain from the given level down to that node. -/
theorem find_sound (tree : List CatNode) (values : List String) (index : Nat)
    (d : CatNode) (h : findCategoryInTree tree values index = .ok (some d)) :
    Chain tree (values.drop index) d := by
  induction tree, values, index using findCategoryInTree.induct with
  | case1 values index => simp [findCategoryInTree] at h
  | case2 node rest values index hget =>
    simp only [findCategoryInTree, hget] at h
    exact Except.noConfusion h
  | case3 node rest values v hmatch hget =>
    rw [find_cons node rest values _ v hget, if_pos hmatch, if_pos rfl] at h
    simp only [Except.ok.injEq, Option.some.injEq] at h
    subst h
    rw [drop_last_eq values v hget]
    exact .here (List.mem_cons_self _ _) hmatch
  | case4 node rest values index v hget hmatch hlast ih =>
    rw [find_cons node rest values index v hget, if_pos hmatch, if_neg hlast] at h
    have hch := ih h
    obtain ⟨hlt, hv⟩ := get?_some_elem values index v hget
    cases hd : values.drop (index + 1) with
    | nil =>
      rw [hd] at hch
      cases hch
    | cons w vs =>
      rw [hd] at hch
      rw [List.drop_eq_getElem_cons hlt, hv, hd]
      exact .there (List.mem_cons_self _ _) hmatch hch
  | case5 node rest values index v hget hmatch ih =>
    rw [find_cons node rest values index v hget, if_neg hmatch] at h
    exact Chain.mono_cons node rest _ d (ih h)

/-- Completeness for the greedy chain: the search follows exactly the
first-match descent. -/
theorem first_chain_find (tree : List CatNode) (vs : List String) (d : CatNode)
    (h : FirstChain tree vs d) :
    ∀ (values : List String) (index : Nat), values.drop index = vs →
      findCategoryInTree tree values index = .ok (some d) := by
  induction h with
  | @here pre post v n hpre hn =>
    intro values index hdrop
    have hlen : values.length - index = 1 := by
      have hl := List.length_drop index values
      rw [hdrop] at hl
      simpa using hl.symm
    have hget : values.get? index = some v := by
      rw [List.get?_eq_getElem?]
      have hg := List.getElem?_drop values index 0
      rw [hdrop] at hg
      simpa using hg.symm
    have hlt : index < values.length := (get?_some_elem values index v hget).1
    have hlast : index = values.length - 1 := by omega
    rw [find_skip pre (n :: post) values index v hget hpre,
      find_cons n post values index v hget, if_pos hn, if_pos hlast]
  | @there pre post v w vs' n d hpre hn hch ih =>
    intro values index hdrop
    have hlen : values.length - index = (v :: w :: vs').length := by
      have hl := List.length_drop index values
      rw [hdrop] at hl
      exact hl.symm
    have hget : values.get? index = some v := by
      rw [List.get?_eq_getElem?]
      have hg := List.getElem?_drop values index 0
      rw [hdrop] at hg
      simpa using hg.symm
    have hlt : index < values.length := (get?_some_elem values index v hget).1
    have hnl : index ≠ values.length - 1 := by
      simp only [List.length_cons] at hlen
      omega
    have hdrop' : values.drop (index + 1) = w :: vs' := by
      have ht := List.tail_drop values index
      rw [hdrop] at ht
      exact ht.symm
    rw [find_skip pre (n :: post) values index v hget hpre,
      find_cons n post values index v hget, if_pos hn, if_neg hnl]
    exact ih values (index + 1) hdrop'

/-! ### Claims C1–C3 -/

/-- C1 (counterexample): the original claim — `findCategoryInTree` returns
the descendant for EVERY path that traces an actual chain — fails: in
`[{id 1, "/a", []}, {id 2, "/a", [{id 3, "/a/b", []}]}]` the path
`["a","b"]` traces an actual chain ending at node 3, but the search
greedily enters node 1 (the first sibling whose slug matches `"a"`),
finds nothing below it, and returns `null` without backtracking. -/
theorem C1_counterexample :
    Chain [.mk 1 "/a" [], .mk 2 "/a" [.mk 3 "/a/b" []]] ["a", "b"] (.mk 3 "/a/b" []) ∧
    findCategoryInTree [.mk 1 "/a" [], .mk 2 "/a" [.mk 3 "/a/b" []]] ["a", "b"] 0 =
      .ok none := by
  constructor
  · exact .there (List.mem_cons_of_mem _ (List.mem_cons_self _ _)) (by decide)
      (.here (List.mem_cons_self _ _) (by decide))
  · simp [findCategoryInTree, slugMatches, lastSegment, jsToUpper, jsSplitSlash,
      splitSlashAux, CatNode.url, CatNode.children]

/-- C1 (amended): for every tree `T` and slug path `P` that traces a
root-to-descendant chain in which, at every level, the chain's node is the
FIRST sibling (in source order) whose slug matches that level's segment
— matching by case-insensitive equality of the final `/`-delimited
segment of the node's URL — `findCategoryInTree` returns that
descendant node. -/
theorem C1_first_match_chain_is_found (tree : List CatNode) (values : List String)
    (d : CatNode) (h : FirstChain tree values d) :
    findCategoryInTree tree values 0 = .ok (some d) :=
  first_chain_find tree values d h values 0 (by simp)

/-- C1 witness: the spec's scenario — tree
`[{id 1, "/shoes", [{id 2, "/shoes/sneakers", []}]}]` with path
`["shoes", "sneakers"]` yields node 2. -/
theorem C1_witness :
    findCategoryInTree [.mk 1 "/shoes" [.mk 2 "/shoes/sneakers" []]]
      ["shoes", "sneakers"] 0 = .ok (some (.mk 2 "/shoes/sneakers" [])) :=
  C1_first_match_chain_is_found _ _ _
    (@FirstChain.there [] [] "shoes" "sneakers" [] (.mk 1 "/shoes" [.mk 2 "/shoes/sneakers" []])
      (.mk 2 "/shoes/sneakers" []) (by simp) (by decide)
      (@FirstChain.here [] [] "sneakers" (.mk 2 "/shoes/sneakers" []) (by simp) (by decide)))

/-- C2 (counterexample): the original claim promises that the search
"never raises, for any tree and any slug path", but on a non-empty tree
and the EMPTY slug path the JS code evaluates
`values[0].toUpperCase()` on `undefined` and throws (modelled as
`.error ()`); the empty path traces no chain. -/
theorem C2_counterexample :
    findCategoryInTree [.mk 1 "/a" []] [] 0 = .error () ∧
    ¬ ∃ d, Chain [.mk 1 "/a" []] [] d := by
  constructor
  · simp [findCategoryInTree]
  · rintro ⟨d, h⟩
    cases h

/-- C2 (amended): for every tree `T` and every NON-EMPTY slug path `P`
with no matching chain in `T`, `findCategoryInTree` returns `null` and
never raises. -/
theorem C2_no_chain_returns_null (tree : List CatNode) (values : List String)
    (hne : values ≠ []) (hnc : ∀ d, ¬ Chain tree values d) :
    findCategoryInTree tree values 0 = .ok none := by
  have hlen : 0 < values.length := List.length_pos.mpr hne
  obtain ⟨o, ho⟩ := find_no_error tree values 0 hlen
  cases o with
  | none => exact ho
  | some d =>
    have hch := find_sound tree values 0 d ho
    rw [List.drop_zero] at hch
    exact absurd hch (hnc d)

/-- C2 witness: `["z"]` matches nothing in `[{id 1, "/a", []}]`, and the
search returns `null` without raising. -/
theorem C2_witness :
    (["z"] : List String) ≠ [] ∧
    findCategoryInTree [.mk 1 "/a" []] ["z"] 0 = .ok none := by
  refine ⟨by decide, C2_no_chain_returns_null _ _ (by decide) ?_⟩
  intro d h
  cases h with
  | here hmem hm =>
    rw [List.mem_singleton] at hmem
    subst hmem
    exact absurd hm (by decide)

/-- C3: strict single-path descent — whenever the first sibling whose
slug matches the current segment is `node` (everything before it fails
the match), the whole search at that level is decided by `node` alone:
at the last segment it returns `node`, otherwise it equals the recursion
into `node.children`, so a failure below `node` yields `null` regardless
of any later matching sibling (`post` does not occur in the result). -/
theorem C3_first_match_no_backtracking (pre : List CatNode) (node : CatNode)
    (post : List CatNode) (values : List String) (index : Nat) (v : String)
    (hv : values.get? index = some v)
    (hpre : ∀ m ∈ pre, slugMatches m v = false)
    (hnode : slugMatches node v = true) :
    findCategoryInTree (pre ++ node :: post) values index =
      if index = values.length - 1 then .ok (some node)
      else findCategoryInTree node.children values (index + 1) := by
  rw [find_skip pre (node :: post) values index v hv hpre,
    find_cons node post values index v hv, if_pos hnode]

/-- C3 witness: with first sibling `{id 1, "/a", []}` and a later sibling
`{id 2, "/a", [{id 3, "/a/b", []}]}` that would lead to a full match of
`["a","b"]`, the search is decided by the first sibling's (empty)
children. -/
theorem C3_witness :
    (["a", "b"] : List String).get? 0 = some "a" ∧
    findCategoryInTree ([] ++ (.mk 1 "/a" []) :: [.mk 2 "/a" [.mk 3 "/a/b" []]])
        ["a", "b"] 0 =
      (if 0 = (["a", "b"] : List String).length - 1 then .ok (some (.mk 1 "/a" []))
       else findCategoryInTree (CatNode.children (.mk 1 "/a" [])) ["a", "b"] 1) :=
  ⟨by decide,
   C3_first_match_no_backtracking [] (.mk 1 "/a" []) [.mk 2 "/a" [.mk 3 "/a/b" []]]
     ["a", "b"] 0 "a" (by decide) (by simp) (by decide)⟩

/-! ### Claim C4: `buildCategoryMap` -/

/-- The last node of a visit list whose id is `k` ("last visited wins"). -/
def lastMatch (k : Nat) : List CatNode → Option CatNode
  | [] => none
  | c :: cs => (lastMatch k cs).or (if c.id = k then some c else none)

theorem lastMatch_append (k : Nat) (l₁ l₂ : List CatNode) :
    lastMatch k (l₁ ++ l₂) = (lastMatch k l₂).or (lastMatch k l₁) := by
  induction l₁ with
  | nil => simp [lastMatch, Option.or_none]
  | cons c cs ih =>
    rw [List.cons_append, lastMatch, ih, lastMatch, Option.or_assoc]

mutual

theorem appendToMap_spec (c : CatNode) (m : CategoryMap) (k : Nat) :
    appendToMap m c k = (lastMatch k (preorderNode c)).or (m k) := by
  cases c with
  | mk i u cs =>
    rw [appendToMap, appendList_spec cs _ k, preorderNode, lastMatch, Option.or_assoc]
    cases hik : decide (k = i) with
    | true =>
      have hk : k = i := of_decide_eq_true hik
      subst hk
      simp [CatNode.id]
    | false =>
      have hk : ¬ k = i := of_decide_eq_false hik
      have hk' : ¬ (CatNode.mk i u cs).id = k := by
        simp [CatNode.id]
        omega
      simp [hk, hk']
termination_by sizeOf c

theorem appendList_spec (cs : List CatNode) (m : CategoryMap) (k : Nat) :
    appendList m cs k = (lastMatch k (preorderList cs)).or (m k) := by
  cases cs with
  | nil => simp [appendList, preorderList, lastMatch]
  | cons c cs =>
    rw [appendList, appendList_spec cs _ k, appendToMap_spec c m k, preorderList,
      lastMatch_append, Option.or_assoc]
termination_by sizeOf cs

end

theorem lastMatch_isSome (k : Nat) (l : List CatNode) :
    (lastMatch k l).isSome = true ↔ k ∈ l.map CatNode.id := by
  induction l with
  | nil => simp [lastMatch]
  | cons c cs ih =>
    rw [lastMatch, List.map_cons]
    rw [Option.isSome_or]
    by_cases hk : c.id = k
    · simp [hk, ih]
    · have hk' : ¬ k = c.id := fun h => hk h.symm
      simp [hk, hk', ih]

/-- C4: `buildCategoryMap` behaves as a depth-first pre-order traversal
of the tree feeding a single accumulated map: the binding of any key `k`
is the LAST pre-order-visited node whose identifier is `k` (duplicate
identifiers: last visited wins), the key set is exactly the set of
identifiers occurring in the tree, and an empty tree yields the empty
map. -/
theorem C4_buildCategoryMap_spec :
    (∀ (t : List CatNode) (k : Nat),
      buildCategoryMap t k = lastMatch k (preorderList t)) ∧
    (∀ (t : List CatNode) (k : Nat),
      (buildCategoryMap t k).isSome = true ↔ k ∈ (preorderList t).map CatNode.id) ∧
    (∀ k : Nat, buildCategoryMap [] k = none) := by
  have hmain : ∀ (t : List CatNode) (k : Nat),
      buildCategoryMap t k = lastMatch k (preorderList t) := by
    intro t k
    rw [buildCategoryMap, appendList_spec t emptyMap k]
    simp [emptyMap, Option.or_none]
  refine ⟨hmain, fun t k => ?_, fun k => ?_⟩
  · rw [hmain t k]
    exact lastMatch_isSome k (preorderList t)
  · rw [hmain [] k]
    simp [preorderList, lastMatch]

/-! ### Claims C5–C9: the resolver -/

theorem getIdFromTree_logs (args : CategoryArgs) (env : Env) :
    (getIdFromTree args env).logs = [] := by
  rw [getIdFromTree]
  split <;> rfl

theorem not_all_falsy (a b c : Bool) (h : (a || b || c) = true) :
    (!a && !b && !c) = false := by
  cases a <;> cases b <;> cases c <;> simp_all

theorem resolver_reaches_pageType (args : CategoryArgs) (env : Env)
    (hargs : (truthyStr args.department || truthyStr args.category ||
      truthyStr args.subcategory) = true) :
    searchContextGetCategory args env true =
      (let url := constructedUrl env args
       let pt : Option PageTypeResult :=
         match env.pageType url with
         | .error _ => none
         | .ok v => v
       let logs : List LogEvent :=
         match pt with
         | none => [pageTypeLogEvent url args]
         | some _ => []
       match pt with
       | none =>
         let fb := getIdFromTree args env
         { fb with pageTypeCalled := true, logs := logs ++ fb.logs }
       | some p =>
         if typesPossible.contains p.pageType then
           { result := some p.id
             pageTypeCalled := true
             categoriesCalled := false
             logs := [] }
         else
           let fb := getIdFromTree args env
           { fb with pageTypeCalled := true, logs := logs ++ fb.logs }) := by
  have hcond := not_all_falsy _ _ _ hargs
  rw [searchContextGetCategory, if_neg (by simp), if_neg (by rw [hcond]; simp)]

/-- C5: in classification mode, when the page-classification service
returns a result whose label is one of the three trusted labels
(`Department`, `Category`, `SubCategory`), the resolver returns that
result's identifier directly: `search.categories` is never invoked
(`categoriesCalled = false`), so no tree fetch and no tree search
happen. -/
theorem C5_trusted_label_short_circuit (args : CategoryArgs) (env : Env)
    (p : PageTypeResult)
    (hargs : (truthyStr args.department || truthyStr args.category ||
      truthyStr args.subcategory) = true)
    (hpt : env.pageType (constructedUrl env args) = .ok (some p))
    (htrusted : p.pageType ∈ typesPossible) :
    searchContextGetCategory args env true =
      { result := some p.id
        pageTypeCalled := true
        categoriesCalled := false
        logs := [] } := by
  rw [resolver_reaches_pageType args env hargs]
  simp only [hpt]
  rw [if_pos (by simpa using htrusted)]

/-- C5 witness: `ClassifyPath` returning `{id 42, "Category"}` makes the
resolver return 42 with `categoriesCalled = false`. -/
theorem C5_witness :
    searchContextGetCategory ⟨some "dep", none, none⟩
      { searchSlugify := fun s => s
        slugify := fun s => s
        pageType := fun _ => .ok (some ⟨42, "Category"⟩)
        categories := fun _ => [] } true =
      { result := some 42
        pageTypeCalled := true
        categoriesCalled := false
        logs := [] } :=
  C5_trusted_label_short_circuit _ _ ⟨42, "Category"⟩ (by decide) rfl (by decide)

/-- C6 concrete environment: the classification service answers with the
untrusted label `FullText`. -/
def envC6 : Env :=
  { searchSlugify := fun s => s
    slugify := fun s => s
    pageType := fun _ => .ok (some ⟨99, "FullText"⟩)
    categories := fun _ => [] }

/-- C6 (counterexample): the original claim says an untrusted label makes
the resolver LOG a diagnostic event and then fall back.  In the code the
`logger.info` call is guarded by `!pageType` only, so an untrusted (but
present) classification falls back to the tree lookup WITHOUT logging:
here the returned trace has an empty log list even though classification
returned the untrusted label `FullText` (and the untrusted id 99 is
ignored — the tree fallback was taken, `categoriesCalled = true`). -/
theorem C6_counterexample :
    (searchContextGetCategory ⟨some "dep", none, none⟩ envC6 true).logs = [] ∧
    (searchContextGetCategory ⟨some "dep", none, none⟩ envC6 true).categoriesCalled = true ∧
    (searchContextGetCategory ⟨some "dep", none, none⟩ envC6 true).result = none := by
  refine ⟨?_, ?_, ?_⟩ <;> rfl

/-- C6 (amended): in classification mode, whenever the service returns a
result whose label is not one of the three trusted labels, the resolver
falls back to the tree lookup with the original args, ignoring the
returned identifier, and logs nothing (the diagnostic event is emitted
only when the classification call fails or returns nothing). -/
theorem C6_untrusted_label_falls_back (args : CategoryArgs) (env : Env)
    (p : PageTypeResult)
    (hargs : (truthyStr args.department || truthyStr args.category ||
      truthyStr args.subcategory) = true)
    (hpt : env.pageType (constructedUrl env args) = .ok (some p))
    (huntrusted : ¬ p.pageType ∈ typesPossible) :
    searchContextGetCategory args env true =
      { getIdFromTree args env with pageTypeCalled := true } ∧
    (searchContextGetCategory args env true).logs = [] := by
  have heq : searchContextGetCategory args env true =
      { getIdFromTree args env with pageTypeCalled := true } := by
    rw [resolver_reaches_pageType args env hargs]
    simp only [hpt]
    rw [if_neg (by simpa using huntrusted)]
    simp [List.nil_append]
  refine ⟨heq, ?_⟩
  rw [heq]
  exact getIdFromTree_logs args env

/-- C6 witness: untrusted label `FullText` with id 99 — the resolver
equals the tree fallback (id 99 ignored) and logs nothing. -/
theorem C6_witness :
    searchContextGetCategory ⟨some "dep", none, none⟩ envC6 true =
      { getIdFromTree ⟨some "dep", none, none⟩ envC6 with pageTypeCalled := true } ∧
    (searchContextGetCategory ⟨some "dep", none, none⟩ envC6 true).logs = [] :=
  C6_untrusted_label_falls_back ⟨some "dep", none, none⟩ envC6 ⟨99, "FullText"⟩
    (by decide) rfl (by decide)

/-- C7: in classification mode, a classification call that throws
(`.error`) or resolves to nothing (`.ok none`) is absorbed: the resolver
never propagates the error and proceeds to the tree-lookup fallback
`getIdFromTree` with the original args (its trace equals the fallback's,
plus the diagnostic log record and `pageTypeCalled`). -/
theorem C7_classification_failure_absorbed (args : CategoryArgs) (env : Env)
    (hargs : (truthyStr args.department || truthyStr args.category ||
      truthyStr args.subcategory) = true)
    (hpt : env.pageType (constructedUrl env args) = .error () ∨
      env.pageType (constructedUrl env args) = .ok none) :
    searchContextGetCategory args env true =
      { getIdFromTree args env with
          pageTypeCalled := true
          logs := [pageTypeLogEvent (constructedUrl env args) args] } := by
  rw [resolver_reaches_pageType args env hargs]
  cases hpt with
  | inl h => simp [h, getIdFromTree_logs args env]
  | inr h => simp [h, getIdFromTree_logs args env]

/-- C7 witness: a throwing classifier — the resolver still produces the
tree fallback's trace (id 7 from the tree), with the diagnostic logged. -/
theorem C7_witness :
    searchContextGetCategory ⟨some "shoes", none, none⟩
      { searchSlugify := fun s => s
        slugify := fun s => s
        pageType := fun _ => .error ()
        categories := fun _ => [.mk 7 "/shoes" []] } true =
      { getIdFromTree ⟨some "shoes", none, none⟩
          { searchSlugify := fun s => s
            slugify := fun s => s
            pageType := fun _ => .error ()
            categories := fun _ => [.mk 7 "/shoes" []] } with
          pageTypeCalled := true
          logs := [pageTypeLogEvent
            (constructedUrl
              { searchSlugify := fun s => s
                slugify := fun s => s
                pageType := fun _ => .error ()
                categories := fun _ => [.mk 7 "/shoes" []] }
              ⟨some "shoes", none, none⟩) ⟨some "shoes", none, none⟩] } :=
  C7_classification_failure_absorbed ⟨some "shoes", none, none⟩ _ (by decide) (Or.inl rfl)

/-- C9: in classification mode, when department, category and subcategory
are all absent, the resolver returns `null` immediately and makes no
external call: neither `search.pageType` nor `search.categories` is
invoked and nothing is logged. -/
theorem C9_empty_args_short_circuit (env : Env) :
    searchContextGetCategory ⟨none, none, none⟩ env true =
      { result := none
        pageTypeCalled := false
        categoriesCalled := false
        logs := [] } := rfl

/-! ### Claim C8: the department match of `getIdFromTree` -/

/-- C8 concrete environment: both normalizers yield the upper-case slug
`"SHOES"`, and the department URL is the upper-case `"/SHOES"`. -/
def envC8 : Env :=
  { searchSlugify := fun _ => "SHOES"
    slugify := fun _ => "SHOES"
    pageType := fun _ => .ok none
    categories := fun _ => [.mk 7 "/SHOES" []] }

/-- C8 (counterexample): the original claim says a department matches
exactly when its URL ends with `/` + either normalized form of
`args.department` COMPARED CASE-INSENSITIVELY.  Here the department URL
`"/SHOES"` ends with `/` + the search-style form `"SHOES"` verbatim
(so certainly case-insensitively), yet the lookup returns `null`: the
code lowercases only the slug (`toLower(searchSlugify(slug))`) and
compares it against the URL as-is, so `"/SHOES"` fails to end with
`"/shoes"`. -/
theorem C8_counterexample :
    jsEndsWith (CatNode.url (.mk 7 "/SHOES" [])) ("/" ++ envC8.searchSlugify "Shoes") = true ∧
    (getIdFromTree ⟨some "Shoes", none, none⟩ envC8).result = none := by
  refine ⟨?_, ?_⟩ <;> rfl

/-- C8 (amended): with a truthy `args.department` (and no category /
subcategory requested), `getIdFromTree` returns the identifier of the
first top-level node whose URL (compared as-is) ends with `/` followed by
the LOWERCASED search-style or the LOWERCASED generic-style normalized
form of `args.department`; in particular a department whose search-style
slug matches nothing can still be found through its generic-style slug. -/
theorem C8_department_match_criterion (env : Env) (args : CategoryArgs) (d : String)
    (hd : args.department = some d) (hne : ¬ d = "")
    (hc : truthyStr args.category = false) (hs : truthyStr args.subcategory = false) :
    (getIdFromTree args env).result =
      ((env.categories 3).find? fun n =>
        jsEndsWith n.url ("/" ++ jsToLower (env.searchSlugify d)) ||
        jsEndsWith n.url ("/" ++ jsToLower (env.slugify d))).map CatNode.id := by
  have htd : truthyStr args.department = true := by
    rw [hd]
    simp [truthyStr, hne]
  have hpred : (fun n : CatNode => compareGenericSlug env args.department n.url) =
      fun n : CatNode =>
        jsEndsWith n.url ("/" ++ jsToLower (env.searchSlugify d)) ||
        jsEndsWith n.url ("/" ++ jsToLower (env.slugify d)) := by
    funext n
    rw [hd, compareGenericSlug, if_neg (by simpa using hne)]
  rw [getIdFromTree, if_pos htd]
  simp only [hc, hs, Bool.false_eq_true, if_false, hpred]

/-- C8 witness environment for the dual-normalizer fallback: the
search-style slug (`"nomatch"`) matches no department URL, the
generic-style slug (`"shoes"`) matches `"/shoes"`. -/
def envC8w : Env :=
  { searchSlugify := fun _ => "nomatch"
    slugify := fun _ => "shoes"
    pageType := fun _ => .ok none
    categories := fun _ => [.mk 7 "/shoes" []] }

/-- C8 witness: the match criterion holds, the search-style slug alone
matches nothing, and the department is still found (id 7) through its
generic-style slug. -/
theorem C8_witness :
    (getIdFromTree ⟨some "Shoes", none, none⟩ envC8w).result =
      ((envC8w.categories 3).find? fun n =>
        jsEndsWith n.url ("/" ++ jsToLower (envC8w.searchSlugify "Shoes")) ||
        jsEndsWith n.url ("/" ++ jsToLower (envC8w.slugify "Shoes"))).map CatNode.id ∧
    ((envC8w.categories 3).find? fun n =>
      jsEndsWith n.url ("/" ++ jsToLower (envC8w.searchSlugify "Shoes"))) = none ∧
    (getIdFromTree ⟨some "Shoes", none, none⟩ envC8w).result = some 7 :=
  ⟨C8_department_match_criterion envC8w ⟨some "Shoes", none, none⟩ "Shoes" rfl
      (by decide) rfl rfl,
    by rfl, by rfl⟩

/-! ### Claim C10: `getCategoryInfo` sentinel -/

/-- C10: for every identifier not occurring in the fetched category tree,
`getCategoryInfo` returns the sentinel `\x7b url: '' \x7d` — a
category-shaped value with an empty URL — rather than `null` or an
error. -/
theorem C10_missing_id_sentinel (env : Env) (cid levels : Nat)
    (h : ¬ cid ∈ (preorderList (env.categories levels)).map CatNode.id) :
    getCategoryInfo env cid levels = .sentinel ∧
    (getCategoryInfo env cid levels).url = "" := by
  have hm : appendList emptyMap (env.categories levels) cid = none := by
    rw [appendList_spec]
    simp only [emptyMap, Option.or_none]
    cases ho : lastMatch cid (preorderList (env.categories levels)) with
    | none => rfl
    | some c =>
      exact absurd ((lastMatch_isSome _ _).mp (by rw [ho]; rfl)) h
  have hs : getCategoryInfo env cid levels = .sentinel := by
    rw [getCategoryInfo]
    simp only [hm]
  exact ⟨hs, by rw [hs]; rfl⟩

/-- C10 witness environment: a one-node tree with id 1. -/
def envC10 : Env :=
  { searchSlugify := fun s => s
    slugify := fun s => s
    pageType := fun _ => .ok none
    categories := fun _ => [.mk 1 "/a" []] }

/-- C10 witness: id 5 is not in the tree; `getCategoryInfo` yields the
sentinel with empty URL. -/
theorem C10_witness :
    ¬ (5 : Nat) ∈ (preorderList (envC10.categories 3)).map CatNode.id ∧
    getCategoryInfo envC10 5 3 = .sentinel ∧
    (getCategoryInfo envC10 5 3).url = "" := by
  have hmem : ¬ (5 : Nat) ∈ (preorderList (envC10.categories 3)).map CatNode.id := by
    simp [envC10, preorderList, preorderNode, CatNode.id]
  exact ⟨hmem, C10_missing_id_sentinel envC10 5 3 hmem⟩

end SearchUtils
